import Mathlib

set_option maxHeartbeats 1000000

/-!
Verification of the sketches-core-cpp sources: the CPC sketch serialized
byte format (cpc_sketch::serialize / cpc_sketch::deserialize), the HLL
register-array estimators (HllArray), and the KLL merge behaviour.

Integers are modelled as Nat with explicit bounds; the two HIP doubles
(kxp, hipEstAccum) are carried as their raw 8-byte little-endian images,
exactly as the C++ code copies them, so bitwise equality is list equality.
-/

/-! ## CPC serialized byte format (cpc_sketch.hpp) -/

/-- Little-endian byte image of a 16-bit integer. -/
def le16 (n : Nat) : List Nat := [n % 256, n / 256 % 256]

/-- Little-endian byte image of a 32-bit integer. -/
def le32 (n : Nat) : List Nat :=
  [n % 256, n / 256 % 256, n / 65536 % 256, n / 16777216 % 256]

/-- Little-endian byte image of an array of 32-bit words. -/
def words32 (ws : List Nat) : List Nat := (ws.map le32).flatten

/-- Modelled from the spec: the IEEE-754 little-endian byte image of the
double `(double)(1 << e)`, i.e. 2^e with zero mantissa and biased exponent
1023 + e.  `cpc_sketch::deserialize` initializes `compressed.kxp = 1 << lg_k`
and the spec states the HIP accumulator `kxp` of a fresh sketch is k. -/
def doubleBytesPow2 (e : Nat) : List Nat :=
  [0, 0, 0, 0, 0, 0, (1023 + e) % 16 * 16, (1023 + e) / 16]

/-- Byte image of the double 0.0 (initial hipEstAccum). -/
def zeroBytes8 : List Nat := List.replicate 8 0

/-- The compressed FM85 value exchanged by `cpc_sketch::serialize` and
`cpc_sketch::deserialize`: exactly the fields the serializer reads and the
deserializer fills.  A C null pointer is `none`; `csvLength` / `cwLength`
are the lengths of the word lists.  The doubles kxp and hipEstAccum are
their 8-byte images. -/
structure FM85C where
  lgK : Nat
  firstInterestingColumn : Nat
  mergeFlag : Bool
  numCoupons : Nat
  numCompressedSurprisingValues : Nat
  kxp : List Nat
  hipEstAccum : List Nat
  compressedSurprisingValues : Option (List Nat)
  compressedWindow : Option (List Nat)
deriving DecidableEq

/-- `cpc_sketch::get_preamble_ints`, translated line by line. -/
def get_preamble_ints (c : FM85C) : Nat :=
  2 + (if 0 < c.numCoupons then
         1 + (if c.mergeFlag then 0 else 4)
           + (if c.compressedSurprisingValues.isSome then
                1 + (if c.compressedWindow.isSome then 1 else 0) else 0)
           + (if c.compressedWindow.isSome then 1 else 0)
       else 0)

/-- `csvLength` of a compressed value (length of the surprising-values words). -/
def csvLength (c : FM85C) : Nat := (c.compressedSurprisingValues.getD []).length

/-- `cwLength` of a compressed value (length of the window words). -/
def cwLength (c : FM85C) : Nat := (c.compressedWindow.getD []).length

/-- The flags byte written by `cpc_sketch::serialize`: bit 1 = IS_COMPRESSED
(always set), bit 2 = HAS_HIP (= !mergeFlag), bit 3 = HAS_TABLE,
bit 4 = HAS_WINDOW. -/
def flagsByte (c : FM85C) : Nat :=
  2 + (if c.mergeFlag then 0 else 4)
    + (if c.compressedSurprisingValues.isSome then 8 else 0)
    + (if c.compressedWindow.isSome then 16 else 0)

/-- The body of the serialized image (everything after the 8 preamble bytes),
written only when the sketch is non-empty; field order as in
`cpc_sketch::serialize` including the two HIP placement decision points. -/
def serializeBody (c : FM85C) : List Nat :=
  let hasHip := !c.mergeFlag
  let hasTable := c.compressedSurprisingValues.isSome
  let hasWindow := c.compressedWindow.isSome
  le32 c.numCoupons
  ++ (if hasTable && hasWindow then
        le32 c.numCompressedSurprisingValues
          ++ (if hasHip then c.kxp ++ c.hipEstAccum else []) else [])
  ++ (if hasTable then le32 (csvLength c) else [])
  ++ (if hasWindow then le32 (cwLength c) else [])
  ++ (if hasHip && !(hasTable && hasWindow) then c.kxp ++ c.hipEstAccum else [])
  ++ (if hasWindow then words32 (c.compressedWindow.getD []) else [])
  ++ (if hasTable then words32 (c.compressedSurprisingValues.getD []) else [])

/-- `cpc_sketch::serialize`: the full byte stream.  `seedHash` is
`compute_seed_hash(seed)` (a 16-bit value; the hash itself is an external
black box). -/
def serializeBytes (c : FM85C) (seedHash : Nat) : List Nat :=
  get_preamble_ints c :: 1 :: 16 :: c.lgK :: c.firstInterestingColumn :: flagsByte c ::
    (le16 seedHash ++ (if 0 < c.numCoupons then serializeBody c else []))

/-- Read one little-endian u32 from the front of a byte stream. -/
def readU32 : List Nat → Option (Nat × List Nat)
  | b0 :: b1 :: b2 :: b3 :: rest =>
      some (b0 + 256 * b1 + 65536 * b2 + 16777216 * b3, rest)
  | _ => none

/-- Read `n` raw bytes from the front of a byte stream. -/
def readBytes : Nat → List Nat → Option (List Nat × List Nat)
  | 0, l => some ([], l)
  | _ + 1, [] => none
  | n + 1, b :: l => (readBytes n l).bind fun p => some (b :: p.1, p.2)

/-- Read `n` little-endian u32 words from the front of a byte stream. -/
def readWords : Nat → List Nat → Option (List Nat × List Nat)
  | 0, l => some ([], l)
  | n + 1, l =>
      (readU32 l).bind fun p =>
      (readWords n p.2).bind fun q =>
      some (p.1 :: q.1, q.2)

/-- `cpc_sketch::read_hip`: the 8-byte kxp image followed by the 8-byte
hipEstAccum image. -/
def readHip (l : List Nat) : Option ((List Nat × List Nat) × List Nat) :=
  (readBytes 8 l).bind fun p =>
  (readBytes 8 p.2).bind fun q =>
  some ((p.1, q.1), q.2)

/-- The body-parsing part of `cpc_sketch::deserialize`: the sequential reads
after the 8 preamble bytes, with the same conditional structure (both HIP
decision points, and the final
`if (!has_window) numCompressedSurprisingValues = numCoupons` assignment).
Fields not read keep the initializations of the C code
(`kxp = 1 << lg_k`, `hipEstAccum = 0`, counts 0, pointers null). -/
def parseBody (hasHip hasTable hasWindow : Bool) (lgk fic : Nat) (l : List Nat) :
    Option FM85C :=
  if hasTable || hasWindow then
    (readU32 l).bind fun p1 =>
    (if hasTable && hasWindow then readU32 p1.2 else some (0, p1.2)).bind fun p2 =>
    (if hasHip && (hasTable && hasWindow) then readHip p2.2
     else some ((doubleBytesPow2 lgk, zeroBytes8), p2.2)).bind fun p3 =>
    (if hasTable then readU32 p3.2 else some (0, p3.2)).bind fun p4 =>
    (if hasWindow then readU32 p4.2 else some (0, p4.2)).bind fun p5 =>
    (if hasHip && !(hasTable && hasWindow) then readHip p5.2
     else some (p3.1, p5.2)).bind fun p6 =>
    (if hasWindow then readWords p5.1 p6.2 else some ([], p6.2)).bind fun p7 =>
    (if hasTable then readWords p4.1 p7.2 else some ([], p7.2)).bind fun p8 =>
    some { lgK := lgk, firstInterestingColumn := fic, mergeFlag := !hasHip,
           numCoupons := p1.1,
           numCompressedSurprisingValues := if hasWindow then p2.1 else p1.1,
           kxp := p6.1.1, hipEstAccum := p6.1.2,
           compressedSurprisingValues := if hasTable then some p8.1 else none,
           compressedWindow := if hasWindow then some p7.1 else none }
  else
    some { lgK := lgk, firstInterestingColumn := fic, mergeFlag := !hasHip,
           numCoupons := 0, numCompressedSurprisingValues := 0,
           kxp := doubleBytesPow2 lgk, hipEstAccum := zeroBytes8,
           compressedSurprisingValues := none, compressedWindow := none }

/-- `cpc_sketch::deserialize`: read the 8 preamble bytes, decode the flag
bits, parse the body, and perform the four validation checks (preamble ints
against `get_preamble_ints` of the reconstructed value, serial version 1,
family 16, seed hash).  A failed check is the thrown corruption error,
modelled as `none`. -/
def deserializeBytes (bytes : List Nat) (seedHash : Nat) : Option FM85C :=
  match bytes with
  | preamble :: serVer :: familyId :: lgk :: fic :: fb :: s0 :: s1 :: rest =>
      (parseBody (fb.testBit 2) (fb.testBit 3) (fb.testBit 4) lgk fic rest).bind fun c =>
      if preamble = get_preamble_ints c ∧ serVer = 1 ∧ familyId = 16 ∧
          s0 + 256 * s1 = seedHash
      then some c else none
  | _ => none

/-- An 8-byte image: length 8, every byte below 256. -/
def bytes8WF (l : List Nat) : Prop := l.length = 8 ∧ ∀ b ∈ l, b < 256

/-- A compressed word array: length and every word fit in 32 bits. -/
def wordsWF : Option (List Nat) → Prop
  | none => True
  | some ws => ws.length < 4294967296 ∧ ∀ w ∈ ws, w < 4294967296

/-- Well-formedness of a compressed FM85 value as produced by `fm85Compress`.
The field bounds come from the declared C types.  The three structural
clauses are modelled from the spec: an empty sketch compresses to null
pointers with the initial HIP accumulators (kxp = k, hipEstAccum = 0); a
non-empty sketch has at least one payload array; and
`numCompressedSurprisingValues` is distinguished from `numCoupons` only when
a window is present (it equals `numCoupons` without a window, and is 0 when
there is a window but no table). -/
def WF (c : FM85C) : Prop :=
  4 ≤ c.lgK ∧ c.lgK ≤ 26 ∧ c.firstInterestingColumn < 256 ∧
  c.numCoupons < 4294967296 ∧ c.numCompressedSurprisingValues < 4294967296 ∧
  bytes8WF c.kxp ∧ bytes8WF c.hipEstAccum ∧
  wordsWF c.compressedSurprisingValues ∧ wordsWF c.compressedWindow ∧
  (c.numCoupons = 0 →
    c.compressedSurprisingValues = none ∧ c.compressedWindow = none ∧
    c.numCompressedSurprisingValues = 0 ∧
    c.kxp = doubleBytesPow2 c.lgK ∧ c.hipEstAccum = zeroBytes8) ∧
  (0 < c.numCoupons →
    c.compressedSurprisingValues.isSome = true ∨ c.compressedWindow.isSome = true) ∧
  (c.compressedWindow = none → c.numCompressedSurprisingValues = c.numCoupons) ∧
  (c.compressedSurprisingValues = none → c.compressedWindow.isSome = true →
    c.numCompressedSurprisingValues = 0)

/-- The value reconstructed by a round trip: identical to the input except
that for a non-empty merged sketch (no HIP in the stream) the deserializer
re-initializes kxp and hipEstAccum to their defaults. -/
def rtImage (c : FM85C) : FM85C :=
  if c.mergeFlag = true ∧ 0 < c.numCoupons then
    { c with kxp := doubleBytesPow2 c.lgK, hipEstAccum := zeroBytes8 }
  else c

/-! ### Byte-reader lemmas -/

theorem le16_decode (n : Nat) (h : n < 65536) :
    n % 256 + 256 * (n / 256 % 256) = n := by omega

theorem readU32_le32 (n : Nat) (h : n < 4294967296) (r : List Nat) :
    readU32 (le32 n ++ r) = some (n, r) := by
  simp only [le32, List.cons_append, List.nil_append, readU32]
  congr 1
  congr 1
  omega

theorem readBytes_append (l r : List Nat) :
    readBytes l.length (l ++ r) = some (l, r) := by
  induction l with
  | nil => simp [readBytes]
  | cons b t ih => simp [readBytes, ih]

theorem readHip_append (a b r : List Nat) (ha : a.length = 8) (hb : b.length = 8) :
    readHip (a ++ (b ++ r)) = some ((a, b), r) := by
  have h1 : readBytes 8 (a ++ (b ++ r)) = some (a, b ++ r) := by
    rw [← ha]; exact readBytes_append a (b ++ r)
  have h2 : readBytes 8 (b ++ r) = some (b, r) := by
    rw [← hb]; exact readBytes_append b r
  simp [readHip, h1, h2]

theorem words32_cons (w : Nat) (t : List Nat) :
    words32 (w :: t) = le32 w ++ words32 t := by
  simp [words32]

theorem readWords_append (ws : List Nat) (h : ∀ w ∈ ws, w < 4294967296)
    (r : List Nat) : readWords ws.length (words32 ws ++ r) = some (ws, r) := by
  induction ws with
  | nil => simp [readWords, words32]
  | cons w t ih =>
      have hw : w < 4294967296 := h w (by simp)
      have ht : ∀ x ∈ t, x < 4294967296 := fun x hx => h x (by simp [hx])
      rw [words32_cons, List.append_assoc]
      simp [readWords, readU32_le32 w hw, ih ht]

theorem readWords_exact (ws : List Nat) (h : ∀ w ∈ ws, w < 4294967296) :
    readWords ws.length (words32 ws) = some (ws, []) := by
  have := readWords_append ws h []
  simpa using this

/-! ### Round trip -/

theorem roundtrip (c : FM85C) (sh : Nat) (hwf : WF c) (hsh : sh < 65536) :
    deserializeBytes (serializeBytes c sh) sh = some (rtImage c) := by
  rcases c with ⟨lgk, fic, mf, nc, nsv, kxp, hip, csv, cw⟩
  obtain ⟨h4, h26, hfic, hncb, hnsvb, hkxp, hhip, hsvw, hcww, hemp, hne, hnw, hwt⟩ := hwf
  obtain ⟨hkl, hkb⟩ := hkxp
  obtain ⟨hhl, hhb⟩ := hhip
  simp only at hncb hnsvb hkl hhl hsvw hcww hemp hne hnw hwt
  have hdec := le16_decode sh hsh
  by_cases hnc : nc = 0
  · subst hnc
    obtain ⟨hcsv, hcw, hnsv, hkd, hhd⟩ := hemp rfl
    subst hcsv; subst hcw; subst hnsv; subst hkd; subst hhd
    cases mf with
    | true =>
        have t2 : Nat.testBit 2 2 = false := by decide
        have t3 : Nat.testBit 2 3 = false := by decide
        have t4 : Nat.testBit 2 4 = false := by decide
        simp [serializeBytes, deserializeBytes, parseBody, get_preamble_ints,
          flagsByte, le16, rtImage, hdec, t2, t3, t4]
    | false =>
        have t2 : Nat.testBit 6 2 = true := by decide
        have t3 : Nat.testBit 6 3 = false := by decide
        have t4 : Nat.testBit 6 4 = false := by decide
        simp [serializeBytes, deserializeBytes, parseBody, get_preamble_ints,
          flagsByte, le16, rtImage, hdec, t2, t3, t4]
  · have hpos : 0 < nc := Nat.pos_of_ne_zero hnc
    rcases csv with _ | sv
    · rcases cw with _ | w
      · rcases hne hpos with h | h <;> simp at h
      · -- window only
        obtain ⟨hwlen, hwelts⟩ := hcww
        have hnsv0 : nsv = 0 := hwt rfl rfl
        subst hnsv0
        have hrw : readWords w.length (words32 w) = some (w, []) :=
          readWords_exact w hwelts
        cases mf with
        | false =>
            have hhipr : readHip (kxp ++ (hip ++ words32 w)) =
                some ((kxp, hip), words32 w) := readHip_append _ _ _ hkl hhl
            have t2 : Nat.testBit 22 2 = true := by decide
            have t3 : Nat.testBit 22 3 = false := by decide
            have t4 : Nat.testBit 22 4 = true := by decide
            simp [serializeBytes, serializeBody, deserializeBytes, parseBody,
              get_preamble_ints, flagsByte, le16, cwLength, rtImage, hpos, hdec,
              t2, t3, t4, readU32_le32 nc hncb, readU32_le32 w.length hwlen,
              hhipr, hrw]
        | true =>
            have t2 : Nat.testBit 18 2 = false := by decide
            have t3 : Nat.testBit 18 3 = false := by decide
            have t4 : Nat.testBit 18 4 = true := by decide
            simp [serializeBytes, serializeBody, deserializeBytes, parseBody,
              get_preamble_ints, flagsByte, le16, cwLength, rtImage, hpos, hdec,
              t2, t3, t4, readU32_le32 nc hncb, readU32_le32 w.length hwlen, hrw]
    · rcases cw with _ | w
      · -- table only
        obtain ⟨hslen, hselts⟩ := hsvw
        have hnsveq : nsv = nc := hnw rfl
        subst hnsveq
        have hrs : readWords sv.length (words32 sv) = some (sv, []) :=
          readWords_exact sv hselts
        cases mf with
        | false =>
            have hhipr : readHip (kxp ++ (hip ++ words32 sv)) =
                some ((kxp, hip), words32 sv) := readHip_append _ _ _ hkl hhl
            have t2 : Nat.testBit 14 2 = true := by decide
            have t3 : Nat.testBit 14 3 = true := by decide
            have t4 : Nat.testBit 14 4 = false := by decide
            simp [serializeBytes, serializeBody, deserializeBytes, parseBody,
              get_preamble_ints, flagsByte, le16, csvLength, rtImage, hpos, hdec,
              t2, t3, t4, readU32_le32 nsv hncb, readU32_le32 sv.length hslen,
              hhipr, hrs]
        | true =>
            have t2 : Nat.testBit 10 2 = false := by decide
            have t3 : Nat.testBit 10 3 = true := by decide
            have t4 : Nat.testBit 10 4 = false := by decide
            simp [serializeBytes, serializeBody, deserializeBytes, parseBody,
              get_preamble_ints, flagsByte, le16, csvLength, rtImage, hpos, hdec,
              t2, t3, t4, readU32_le32 nsv hncb, readU32_le32 sv.length hslen, hrs]
      · -- table and window
        obtain ⟨hslen, hselts⟩ := hsvw
        obtain ⟨hwlen, hwelts⟩ := hcww
        have hrw : readWords w.length (words32 w ++ words32 sv) =
            some (w, words32 sv) := readWords_append w hwelts (words32 sv)
        have hrs : readWords sv.length (words32 sv) = some (sv, []) :=
          readWords_exact sv hselts
        cases mf with
        | false =>
            have hhipr : ∀ r, readHip (kxp ++ (hip ++ r)) = some ((kxp, hip), r) :=
              fun r => readHip_append _ _ _ hkl hhl
            have t2 : Nat.testBit 30 2 = true := by decide
            have t3 : Nat.testBit 30 3 = true := by decide
            have t4 : Nat.testBit 30 4 = true := by decide
            simp [serializeBytes, serializeBody, deserializeBytes, parseBody,
              get_preamble_ints, flagsByte, le16, csvLength, cwLength, rtImage,
              hpos, hdec, t2, t3, t4, readU32_le32 nc hncb,
              readU32_le32 nsv hnsvb, readU32_le32 sv.length hslen,
              readU32_le32 w.length hwlen, hhipr, hrw, hrs]
        | true =>
            have t2 : Nat.testBit 26 2 = false := by decide
            have t3 : Nat.testBit 26 3 = true := by decide
            have t4 : Nat.testBit 26 4 = true := by decide
            simp [serializeBytes, serializeBody, deserializeBytes, parseBody,
              get_preamble_ints, flagsByte, le16, csvLength, cwLength, rtImage,
              hpos, hdec, t2, t3, t4, readU32_le32 nc hncb,
              readU32_le32 nsv hnsvb, readU32_le32 sv.length hslen,
              readU32_le32 w.length hwlen, hrw, hrs]

/-- Agreement on every serialization-relevant field; the HIP doubles are
required to agree bitwise whenever the sketch is on the HIP path
(mergeFlag = false). -/
def obsEq (a b : FM85C) : Prop :=
  a.lgK = b.lgK ∧ a.firstInterestingColumn = b.firstInterestingColumn ∧
  a.mergeFlag = b.mergeFlag ∧ a.numCoupons = b.numCoupons ∧
  a.numCompressedSurprisingValues = b.numCompressedSurprisingValues ∧
  a.compressedSurprisingValues = b.compressedSurprisingValues ∧
  a.compressedWindow = b.compressedWindow ∧
  (b.mergeFlag = false → a.kxp = b.kxp ∧ a.hipEstAccum = b.hipEstAccum)

/-- The data `cpc_sketch::get_estimate` depends on: on the HIP path
(mergeFlag = false) the estimate is `getHIPEstimate(state)`, a function of
the HIP accumulators kxp and hipEstAccum; on the merged path it is
`getIconEstimate(lgK, numCoupons)`, a function of lgK and numCoupons only.
Equal images here give bitwise-equal estimates. -/
def get_estimate_obs (c : FM85C) : (List Nat × List Nat) ⊕ (Nat × Nat) :=
  if c.mergeFlag then Sum.inr (c.lgK, c.numCoupons) else Sum.inl (c.kxp, c.hipEstAccum)

theorem rtImage_obsEq (c : FM85C) : obsEq (rtImage c) c := by
  unfold rtImage
  split
  · rename_i h
    simp [obsEq, h.1]
  · simp [obsEq]

theorem serialize_rtImage (c : FM85C) (sh : Nat) :
    serializeBytes (rtImage c) sh = serializeBytes c sh := by
  rcases c with ⟨lgk, fic, mf, nc, nsv, kxp, hip, csv, cw⟩
  cases mf with
  | false => simp [rtImage]
  | true =>
      by_cases hnc : 0 < nc
      · simp [rtImage, hnc, serializeBytes, serializeBody, get_preamble_ints,
          flagsByte, csvLength, cwLength]
      · simp [rtImage, hnc]

theorem get_estimate_obs_rtImage (c : FM85C) :
    get_estimate_obs (rtImage c) = get_estimate_obs c := by
  unfold rtImage
  split
  · rename_i h
    simp [get_estimate_obs, h.1]
  · rfl

/-- C1.  For every well-formed compressed CPC image (the output of
`fm85Compress` on any sketch state) and the matching 16-bit seed hash,
deserializing the serialized byte stream with the same seed succeeds (all
four corruption checks pass); the reconstructed value agrees with the
original on every serialization-relevant field and bitwise on the HIP
doubles on the HIP path, so `get_estimate` is bitwise equal; re-serializing
it is bytewise equal to the original stream; and for any decompressor
satisfying the spec contract that `fm85Uncompress` rebuilds a sketch whose
bit matrix has `numCoupons` set bits (spec invariant (c), the content of
`cpc_sketch::validate`), the deserialized sketch passes `validate`. -/
theorem claim1_cpc_roundtrip (c : FM85C) (sh : Nat) (hwf : WF c) (hsh : sh < 65536)
    (S : Type) (fm85Uncompress : FM85C → S) (bitMatrixPopcount numCouponsOf : S → Nat)
    (hpop : ∀ d, bitMatrixPopcount (fm85Uncompress d) = d.numCoupons)
    (hnum : ∀ d, numCouponsOf (fm85Uncompress d) = d.numCoupons) :
    deserializeBytes (serializeBytes c sh) sh = some (rtImage c) ∧
    obsEq (rtImage c) c ∧
    serializeBytes (rtImage c) sh = serializeBytes c sh ∧
    get_estimate_obs (rtImage c) = get_estimate_obs c ∧
    bitMatrixPopcount (fm85Uncompress (rtImage c)) =
      numCouponsOf (fm85Uncompress (rtImage c)) := by
  refine ⟨roundtrip c sh hwf hsh, rtImage_obsEq c, serialize_rtImage c sh,
    get_estimate_obs_rtImage c, ?_⟩
  rw [hpop, hnum]

/-- A concrete witness sketch image: lgK 11, one coupon, table only, HIP. -/
def wit1 : FM85C :=
  { lgK := 11, firstInterestingColumn := 0, mergeFlag := false, numCoupons := 1,
    numCompressedSurprisingValues := 1,
    kxp := doubleBytesPow2 11, hipEstAccum := zeroBytes8,
    compressedSurprisingValues := some [5], compressedWindow := none }

theorem wit1_WF : WF wit1 := by
  refine ⟨by decide, by decide, by decide, by decide, by decide,
    ⟨by decide, by decide⟩, ⟨by decide, by decide⟩, ⟨by decide, by decide⟩,
    trivial, ?_, ?_, ?_, ?_⟩
  · intro h; simp [wit1] at h
  · intro h; left; rfl
  · intro h; rfl
  · intro h h2; simp [wit1] at h

theorem claim1_cpc_roundtrip_witness :
    WF wit1 ∧ (0 : Nat) < 65536 ∧
    (deserializeBytes (serializeBytes wit1 0) 0 = some (rtImage wit1) ∧
     obsEq (rtImage wit1) wit1 ∧
     serializeBytes (rtImage wit1) 0 = serializeBytes wit1 0 ∧
     get_estimate_obs (rtImage wit1) = get_estimate_obs wit1 ∧
     FM85C.numCoupons (id (rtImage wit1)) = FM85C.numCoupons (id (rtImage wit1))) :=
  ⟨wit1_WF, by decide,
    claim1_cpc_roundtrip wit1 0 wit1_WF (by decide) FM85C id
      FM85C.numCoupons FM85C.numCoupons (fun d => rfl) (fun d => rfl)⟩

/-! ### Header corruption -/

theorem serializeBytes_shape (c : FM85C) (sh : Nat) :
    serializeBytes c sh = get_preamble_ints c :: 1 :: 16 :: c.lgK ::
      c.firstInterestingColumn :: flagsByte c :: sh % 256 :: sh / 256 % 256 ::
      (if 0 < c.numCoupons then serializeBody c else []) := rfl

theorem deser_shape (p sv fam lgk fic fb s0 s1 sh : Nat) (rest : List Nat) :
    deserializeBytes (p :: sv :: fam :: lgk :: fic :: fb :: s0 :: s1 :: rest) sh =
      (parseBody (fb.testBit 2) (fb.testBit 3) (fb.testBit 4) lgk fic rest).bind
        fun d => if p = get_preamble_ints d ∧ sv = 1 ∧ fam = 16 ∧
                    s0 + 256 * s1 = sh then some d else none := rfl

theorem set_hdr0 (a0 a1 a2 a3 a4 a5 a6 a7 b : Nat) (t : List Nat) :
    (a0 :: a1 :: a2 :: a3 :: a4 :: a5 :: a6 :: a7 :: t).set 0 b =
      b :: a1 :: a2 :: a3 :: a4 :: a5 :: a6 :: a7 :: t := rfl

theorem set_hdr1 (a0 a1 a2 a3 a4 a5 a6 a7 b : Nat) (t : List Nat) :
    (a0 :: a1 :: a2 :: a3 :: a4 :: a5 :: a6 :: a7 :: t).set 1 b =
      a0 :: b :: a2 :: a3 :: a4 :: a5 :: a6 :: a7 :: t := rfl

theorem set_hdr2 (a0 a1 a2 a3 a4 a5 a6 a7 b : Nat) (t : List Nat) :
    (a0 :: a1 :: a2 :: a3 :: a4 :: a5 :: a6 :: a7 :: t).set 2 b =
      a0 :: a1 :: b :: a3 :: a4 :: a5 :: a6 :: a7 :: t := rfl

theorem set_hdr6 (a0 a1 a2 a3 a4 a5 a6 a7 b : Nat) (t : List Nat) :
    (a0 :: a1 :: a2 :: a3 :: a4 :: a5 :: a6 :: a7 :: t).set 6 b =
      a0 :: a1 :: a2 :: a3 :: a4 :: a5 :: b :: a7 :: t := rfl

theorem set_hdr7 (a0 a1 a2 a3 a4 a5 a6 a7 b : Nat) (t : List Nat) :
    (a0 :: a1 :: a2 :: a3 :: a4 :: a5 :: a6 :: a7 :: t).set 7 b =
      a0 :: a1 :: a2 :: a3 :: a4 :: a5 :: a6 :: b :: t := rfl

/-- C2.  Take the serialized image of any well-formed compressed CPC value.
Overwriting the preamble-ints byte (offset 0), the serial-version byte
(offset 1), the family-id byte (offset 2), or either byte of the 16-bit
seed-hash field (offsets 6 and 7) with any different value makes
deserialization with the original seed fail with a corruption error
(`none`) instead of returning a sketch. -/
theorem claim2_header_corruption (c : FM85C) (sh : Nat) (hwf : WF c)
    (hsh : sh < 65536) (b : Nat) :
    (b ≠ get_preamble_ints c →
      deserializeBytes ((serializeBytes c sh).set 0 b) sh = none) ∧
    (b ≠ 1 → deserializeBytes ((serializeBytes c sh).set 1 b) sh = none) ∧
    (b ≠ 16 → deserializeBytes ((serializeBytes c sh).set 2 b) sh = none) ∧
    (b ≠ sh % 256 → deserializeBytes ((serializeBytes c sh).set 6 b) sh = none) ∧
    (b ≠ sh / 256 % 256 →
      deserializeBytes ((serializeBytes c sh).set 7 b) sh = none) := by
  have hrt := roundtrip c sh hwf hsh
  rw [serializeBytes_shape c sh, deser_shape] at hrt
  obtain ⟨d, hpb, hif⟩ := Option.bind_eq_some.mp hrt
  rcases Decidable.em (get_preamble_ints c = get_preamble_ints d ∧ (1 : Nat) = 1 ∧
      (16 : Nat) = 16 ∧ sh % 256 + 256 * (sh / 256 % 256) = sh) with hcond | hcond
  swap
  · rw [if_neg hcond] at hif; cases hif
  rw [serializeBytes_shape c sh]
  refine ⟨?_, ?_, ?_, ?_, ?_⟩
  · intro hb
    rw [set_hdr0, deser_shape, hpb, Option.some_bind, if_neg]
    intro hc
    exact hb (hc.1.trans hcond.1.symm)
  · intro hb
    rw [set_hdr1, deser_shape, hpb, Option.some_bind, if_neg]
    intro hc
    exact hb hc.2.1
  · intro hb
    rw [set_hdr2, deser_shape, hpb, Option.some_bind, if_neg]
    intro hc
    exact hb hc.2.2.1
  · intro hb
    rw [set_hdr6, deser_shape, hpb, Option.some_bind, if_neg]
    intro hc
    have h1 := hc.2.2.2
    have h2 := hcond.2.2.2
    exact hb (by omega)
  · intro hb
    rw [set_hdr7, deser_shape, hpb, Option.some_bind, if_neg]
    intro hc
    have h1 := hc.2.2.2
    have h2 := hcond.2.2.2
    exact hb (by omega)

theorem claim2_header_corruption_witness :
    WF wit1 ∧ (0 : Nat) < 65536 ∧ (99 : Nat) ≠ get_preamble_ints wit1 ∧
    deserializeBytes ((serializeBytes wit1 0).set 0 99) 0 = none ∧
    deserializeBytes ((serializeBytes wit1 0).set 1 99) 0 = none ∧
    deserializeBytes ((serializeBytes wit1 0).set 2 99) 0 = none ∧
    deserializeBytes ((serializeBytes wit1 0).set 6 99) 0 = none ∧
    deserializeBytes ((serializeBytes wit1 0).set 7 99) 0 = none := by
  have h := claim2_header_corruption wit1 0 wit1_WF (by decide) 99
  exact ⟨wit1_WF, by decide, by decide, h.1 (by decide), h.2.1 (by decide),
    h.2.2.1 (by decide), h.2.2.2.1 (by decide), h.2.2.2.2 (by decide)⟩

/-! ### HIP field placement -/

/-- The byte offset at which `write_hip` places the kxp/hipEstAccum images,
read off the field order of `cpc_sketch::serialize`: 8 preamble bytes, the
numCoupons u32, then either (both payloads) the numSurprises u32 before HIP,
or (single payload) the present length u32 fields before HIP. -/
def hipOffset (c : FM85C) : Nat :=
  if c.compressedSurprisingValues.isSome ∧ c.compressedWindow.isSome then 16
  else 12 + (if c.compressedSurprisingValues.isSome then 4 else 0)
         + (if c.compressedWindow.isSome then 4 else 0)

/-- C3.  In every serialized image of a well-formed compressed CPC value in
which the HIP fields are present (HIP path and non-empty), the 16 HIP bytes
(kxp then hipEstAccum) begin at byte offset `hipOffset`, and that offset is
a multiple of 8 — in both placement branches: with table and window the HIP
fields follow numCoupons and numSurprises (offset 16), and with a single
payload they follow numCoupons and the single length field (offset
12 + 4 = 16 again). -/
theorem claim3_hip_alignment (c : FM85C) (sh : Nat) (hwf : WF c)
    (hm : c.mergeFlag = false) (hnc : 0 < c.numCoupons) :
    ∃ pre tail, serializeBytes c sh = pre ++ (c.kxp ++ (c.hipEstAccum ++ tail)) ∧
      pre.length = hipOffset c ∧ hipOffset c % 8 = 0 := by
  obtain ⟨h4, h26, hfic, hncb, hnsvb, hkxp, hhip, hsvw, hcww, hemp, hne, hnw, hwt⟩ := hwf
  rcases c with ⟨lgk, fic, mf, nc, nsv, kxp, hip, csv, cw⟩
  simp only at hm hnc ⊢
  subst hm
  rcases csv with _ | sv
  · rcases cw with _ | w
    · rcases hne hnc with h | h <;> simp at h
    · refine ⟨(get_preamble_ints ⟨lgk, fic, false, nc, nsv, kxp, hip, none, some w⟩ ::
        1 :: 16 :: lgk :: fic ::
        flagsByte ⟨lgk, fic, false, nc, nsv, kxp, hip, none, some w⟩ :: le16 sh)
        ++ le32 nc ++ le32 w.length, words32 w, ?_, ?_, ?_⟩
      · simp [serializeBytes, serializeBody, hnc, cwLength]
      · simp [le16, le32, hipOffset]
      · simp [hipOffset]
  · rcases cw with _ | w
    · refine ⟨(get_preamble_ints ⟨lgk, fic, false, nc, nsv, kxp, hip, some sv, none⟩ ::
        1 :: 16 :: lgk :: fic ::
        flagsByte ⟨lgk, fic, false, nc, nsv, kxp, hip, some sv, none⟩ :: le16 sh)
        ++ le32 nc ++ le32 sv.length, words32 sv, ?_, ?_, ?_⟩
      · simp [serializeBytes, serializeBody, hnc, csvLength]
      · simp [le16, le32, hipOffset]
      · simp [hipOffset]
    · refine ⟨(get_preamble_ints ⟨lgk, fic, false, nc, nsv, kxp, hip, some sv, some w⟩ ::
        1 :: 16 :: lgk :: fic ::
        flagsByte ⟨lgk, fic, false, nc, nsv, kxp, hip, some sv, some w⟩ :: le16 sh)
        ++ le32 nc ++ le32 nsv,
        le32 sv.length ++ (le32 w.length ++ (words32 w ++ words32 sv)), ?_, ?_, ?_⟩
      · simp [serializeBytes, serializeBody, hnc, csvLength, cwLength]
      · simp [le16, le32, hipOffset]
      · simp [hipOffset]

theorem claim3_hip_alignment_witness :
    WF wit1 ∧ wit1.mergeFlag = false ∧ 0 < wit1.numCoupons ∧
    (∃ pre tail, serializeBytes wit1 0 = pre ++ (wit1.kxp ++ (wit1.hipEstAccum ++ tail)) ∧
      pre.length = hipOffset wit1 ∧ hipOffset wit1 % 8 = 0) :=
  ⟨wit1_WF, rfl, by decide, claim3_hip_alignment wit1 0 wit1_WF rfl (by decide)⟩

/-! ### Table-only deserialization -/

theorem parseBody_no_window (hasHip hasTable : Bool) (lgk fic : Nat) (l : List Nat)
    (d : FM85C) (h : parseBody hasHip hasTable false lgk fic l = some d) :
    d.numCompressedSurprisingValues = d.numCoupons := by
  cases hasTable with
  | false =>
      simp [parseBody] at h
      rw [← h]
  | true =>
      cases hasHip with
      | false =>
          simp [parseBody] at h
          rcases e1 : readU32 l with _ | p1 <;> rw [e1] at h
          · simp at h
          · simp at h
            rcases e2 : readU32 p1.2 with _ | p4 <;> rw [e2] at h
            · simp at h
            · simp at h
              rcases e3 : readWords p4.1 p4.2 with _ | p8 <;> rw [e3] at h
              · simp at h
              · simp at h
                rw [← h]
      | true =>
          simp [parseBody] at h
          rcases e1 : readU32 l with _ | p1 <;> rw [e1] at h
          · simp at h
          · simp at h
            rcases e2 : readU32 p1.2 with _ | p4 <;> rw [e2] at h
            · simp at h
            · simp at h
              rcases e3 : readHip p4.2 with _ | p6 <;> rw [e3] at h
              · simp at h
              · simp at h
                rcases e4 : readWords p4.1 p6.2 with _ | p8 <;> rw [e4] at h
                · simp at h
                · simp at h
                  rw [← h]

/-- C8.  For every CPC byte stream whose flags byte has hasTable (bit 3) set
and hasWindow (bit 4) clear, a successful deserialization yields a value
whose numCompressedSurprisingValues equals its numCoupons (the
`if (!has_window)` assignment at the end of the body reads). -/
theorem claim8_no_window_surprises (p sv fam lgk fic fb s0 s1 sh : Nat)
    (rest : List Nat) (C : FM85C)
    (ht : fb.testBit 3 = true) (hw : fb.testBit 4 = false)
    (hdes : deserializeBytes (p :: sv :: fam :: lgk :: fic :: fb :: s0 :: s1 :: rest)
      sh = some C) :
    C.numCompressedSurprisingValues = C.numCoupons := by
  rw [deser_shape, ht, hw] at hdes
  obtain ⟨d, hpb, hif⟩ := Option.bind_eq_some.mp hdes
  have hd : d.numCompressedSurprisingValues = d.numCoupons :=
    parseBody_no_window _ _ _ _ _ _ hpb
  rcases Decidable.em (p = get_preamble_ints d ∧ sv = 1 ∧ fam = 16 ∧
      s0 + 256 * s1 = sh) with hcond | hcond
  · rw [if_pos hcond] at hif
    cases hif
    exact hd
  · rw [if_neg hcond] at hif
    cases hif

theorem claim8_no_window_surprises_witness :
    Nat.testBit 10 3 = true ∧ Nat.testBit 10 4 = false ∧
    (∃ C, deserializeBytes [4, 1, 16, 11, 0, 10, 0, 0, 1, 0, 0, 0, 1, 0, 0, 0,
        5, 0, 0, 0] 0 = some C ∧
      C.numCompressedSurprisingValues = C.numCoupons) := by
  refine ⟨by decide, by decide, ?_⟩
  have h : deserializeBytes [4, 1, 16, 11, 0, 10, 0, 0, 1, 0, 0, 0, 1, 0, 0, 0,
      5, 0, 0, 0] 0 = some
      { lgK := 11, firstInterestingColumn := 0, mergeFlag := true, numCoupons := 1,
        numCompressedSurprisingValues := 1, kxp := doubleBytesPow2 11,
        hipEstAccum := zeroBytes8, compressedSurprisingValues := some [5],
        compressedWindow := none } := by decide
  exact ⟨_, h, claim8_no_window_surprises 4 1 16 11 0 10 0 0 0 _ _
    (by decide) (by decide) h⟩

/-! ## HLL estimators (HllArray.cpp)

Doubles are modelled over ℚ.  The interpolation and harmonic-number tables
(CompositeInterpolationXTable, CubicInterpolation, HarmonicNumbers,
RelativeErrorTables, and the HllUtil RSE constants) are not among the core
sources and the spec fixes them by interface only, so they are parameters
of the model. -/

structure HllTables where
  xArr : Nat → List ℚ
  yStride : Nat → ℚ
  cubicInterp : List ℚ → ℚ → ℚ → ℚ
  bitMapEstimate : Nat → Nat → ℚ
  logTerm : Nat → ℚ

/-- `HllArray::getHllRawEstimate`: correction factor times k² over the kxq
sum (configK = 2^lgConfigK inlined). -/
def getHllRawEstimate (lgConfigK : Nat) (kxqSum : ℚ) : ℚ :=
  (if lgConfigK = 4 then (0.673 : ℚ)
   else if lgConfigK = 5 then 0.697
   else if lgConfigK = 6 then 0.709
   else 0.7213 / (1 + 1.079 / ((2 ^ lgConfigK : Nat) : ℚ)))
  * ((2 ^ lgConfigK : Nat) : ℚ) * ((2 ^ lgConfigK : Nat) : ℚ) / kxqSum

/-- `HllArray::getHllBitMapEstimate`: harmonic-number bit-map estimator
over (configK, numHitBuckets); the `numUnhitBuckets == 0` branch returns
`configK * log(configK/0.5)`, abstracted as `logTerm`. -/
def getHllBitMapEstimate (T : HllTables) (lgConfigK curMin numAtCurMin : Nat) : ℚ :=
  if (if curMin = 0 then numAtCurMin else 0) = 0 then T.logTerm lgConfigK
  else T.bitMapEstimate (2 ^ lgConfigK)
    (2 ^ lgConfigK - (if curMin = 0 then numAtCurMin else 0))

/-- `HllArray::getCompositeEstimate`, translated return by return: the two
x-array clamp branches, the `adjEst > 3k` branch, and the crossover
selection between adjEst and the bit-map linear estimate. -/
def getCompositeEstimate (T : HllTables) (lgConfigK curMin numAtCurMin : Nat)
    (kxq0 kxq1 : ℚ) : ℚ :=
  if getHllRawEstimate lgConfigK (kxq0 + kxq1) < (T.xArr lgConfigK).headD 0 then 0
  else if getHllRawEstimate lgConfigK (kxq0 + kxq1) >
      (T.xArr lgConfigK).getD ((T.xArr lgConfigK).length - 1) 0 then
    getHllRawEstimate lgConfigK (kxq0 + kxq1) *
      (T.yStride lgConfigK * (((T.xArr lgConfigK).length - 1 : Nat) : ℚ) /
        (T.xArr lgConfigK).getD ((T.xArr lgConfigK).length - 1) 0)
  else if T.cubicInterp (T.xArr lgConfigK) (T.yStride lgConfigK)
      (getHllRawEstimate lgConfigK (kxq0 + kxq1)) > ((3 * 2 ^ lgConfigK : Nat) : ℚ) then
    T.cubicInterp (T.xArr lgConfigK) (T.yStride lgConfigK)
      (getHllRawEstimate lgConfigK (kxq0 + kxq1))
  else if (T.cubicInterp (T.xArr lgConfigK) (T.yStride lgConfigK)
        (getHllRawEstimate lgConfigK (kxq0 + kxq1)) +
      getHllBitMapEstimate T lgConfigK curMin numAtCurMin) / 2 >
      (if lgConfigK = 4 then (0.718 : ℚ) else if lgConfigK = 5 then 0.672 else 0.64) *
        ((2 ^ lgConfigK : Nat) : ℚ) then
    T.cubicInterp (T.xArr lgConfigK) (T.yStride lgConfigK)
      (getHllRawEstimate lgConfigK (kxq0 + kxq1))
  else getHllBitMapEstimate T lgConfigK curMin numAtCurMin

/-- The composite estimator exactly as the claim sentence states it: raw
estimate α_k·k²/(kxq0+kxq1) with the published correction factors,
interpolated to adjEst via the per-lgK x-array, adjEst whenever
adjEst > 3k, otherwise adjEst iff (adjEst+linEst)/2 > crossover·k, else the
bit-map linear estimate. -/
def compositeEstimateSpec (T : HllTables) (lgConfigK curMin numAtCurMin : Nat)
    (kxq0 kxq1 : ℚ) : ℚ :=
  let k : ℚ := 2 ^ lgConfigK
  let alpha : ℚ :=
    if lgConfigK = 4 then 0.673
    else if lgConfigK = 5 then 0.697
    else if lgConfigK = 6 then 0.709
    else 0.7213 / (1 + 1.079 / k)
  let adjEst := T.cubicInterp (T.xArr lgConfigK) (T.yStride lgConfigK)
    (alpha * k ^ 2 / (kxq0 + kxq1))
  if adjEst > 3 * k then adjEst
  else
    let linEst := getHllBitMapEstimate T lgConfigK curMin numAtCurMin
    let crossover : ℚ :=
      if lgConfigK = 4 then 0.718 else if lgConfigK = 5 then 0.672 else 0.64
    if (adjEst + linEst) / 2 > crossover * k then adjEst else linEst

theorem getHllRawEstimate_eq (lgConfigK : Nat) (s : ℚ) :
    getHllRawEstimate lgConfigK s =
      (if lgConfigK = 4 then (0.673 : ℚ)
       else if lgConfigK = 5 then 0.697
       else if lgConfigK = 6 then 0.709
       else 0.7213 / (1 + 1.079 / ((2 : ℚ) ^ lgConfigK)))
      * ((2 : ℚ) ^ lgConfigK) ^ 2 / s := by
  unfold getHllRawEstimate
  push_cast
  ring

/-- C4.  Whenever the raw estimate lies inside the x-array range (so the
interpolation, not its boundary clamps, produces adjEst),
`HllArray::getCompositeEstimate` computes exactly what the claim states:
the raw estimate with correction factors α_4 = 0.673, α_5 = 0.697,
α_6 = 0.709, else 0.7213/(1+1.079/k); adjEst from the per-lgK x-array; and
the 3k / crossover(0.718, 0.672, 0.64) selection against the bit-map
linear estimate. -/
theorem claim4_composite_estimator (T : HllTables) (lgConfigK curMin numAtCurMin : Nat)
    (kxq0 kxq1 : ℚ)
    (hlo : (T.xArr lgConfigK).headD 0 ≤ getHllRawEstimate lgConfigK (kxq0 + kxq1))
    (hhi : getHllRawEstimate lgConfigK (kxq0 + kxq1) ≤
      (T.xArr lgConfigK).getD ((T.xArr lgConfigK).length - 1) 0) :
    getCompositeEstimate T lgConfigK curMin numAtCurMin kxq0 kxq1 =
      compositeEstimateSpec T lgConfigK curMin numAtCurMin kxq0 kxq1 := by
  unfold getCompositeEstimate compositeEstimateSpec
  rw [if_neg (not_lt.mpr hlo), if_neg (not_lt.mpr hhi)]
  rw [show ∀ x : ℚ, getHllRawEstimate lgConfigK x =
      (if lgConfigK = 4 then (0.673 : ℚ)
       else if lgConfigK = 5 then 0.697
       else if lgConfigK = 6 then 0.709
       else 0.7213 / (1 + 1.079 / ((2 : ℚ) ^ lgConfigK)))
      * ((2 : ℚ) ^ lgConfigK) ^ 2 / x from fun x => getHllRawEstimate_eq lgConfigK x]
  push_cast
  ring_nf

/-- Interface tables instantiated with simple concrete values, for witnesses. -/
def witTables : HllTables :=
  { xArr := fun _ => [0, 1000000000], yStride := fun _ => 1,
    cubicInterp := fun _ _ r => r, bitMapEstimate := fun _ _ => 0,
    logTerm := fun _ => 0 }

theorem claim4_composite_estimator_witness :
    (witTables.xArr 10).headD 0 ≤ getHllRawEstimate 10 (1024 + 0) ∧
    getHllRawEstimate 10 (1024 + 0) ≤
      (witTables.xArr 10).getD ((witTables.xArr 10).length - 1) 0 ∧
    getCompositeEstimate witTables 10 0 512 1024 0 =
      compositeEstimateSpec witTables 10 0 512 1024 0 := by
  refine ⟨?_, ?_, claim4_composite_estimator witTables 10 0 512 1024 0 ?_ ?_⟩ <;>
    norm_num [witTables, getHllRawEstimate]

/-- `HllArray::getLowerBound`, over ℚ.  The RSE factors, the relative-error
table and sqrt are interface values (HllUtil.hpp and
RelativeErrorTables.cpp are not among the core sources); the bound below
holds for every choice of them. -/
def getLowerBound (T : HllTables) (hipRse nonHipRse : ℚ)
    (relErrTable : Bool → Bool → Nat → Nat → ℚ) (sqrtFn : ℚ → ℚ)
    (lgConfigK curMin numAtCurMin : Nat) (oooFlag : Bool)
    (hipAccum kxq0 kxq1 : ℚ) (numStdDev : Nat) : ℚ :=
  max
    ((if oooFlag then getCompositeEstimate T lgConfigK curMin numAtCurMin kxq0 kxq1
      else hipAccum) /
     (1 + (if 12 < lgConfigK then
             (numStdDev : ℚ) * (if oooFlag then nonHipRse else hipRse) /
               sqrtFn ((2 ^ lgConfigK : Nat) : ℚ)
           else relErrTable false oooFlag lgConfigK numStdDev)))
    (if curMin = 0 then ((2 ^ lgConfigK : Nat) : ℚ) - (numAtCurMin : ℚ)
     else ((2 ^ lgConfigK : Nat) : ℚ))

/-- C5.  For every HLL-mode sketch state and every valid numStdDev (1..3),
`getLowerBound` is at least numNonZeros, where numNonZeros is
k − numAtCurMin when curMin = 0 and k otherwise (the `fmax` in the return
statement). -/
theorem claim5_lower_bound_floor (T : HllTables) (hipRse nonHipRse : ℚ)
    (relErrTable : Bool → Bool → Nat → Nat → ℚ) (sqrtFn : ℚ → ℚ)
    (lgConfigK curMin numAtCurMin : Nat) (oooFlag : Bool)
    (hipAccum kxq0 kxq1 : ℚ) (numStdDev : Nat)
    (h1 : 1 ≤ numStdDev) (h3 : numStdDev ≤ 3) :
    (if curMin = 0 then ((2 ^ lgConfigK : Nat) : ℚ) - (numAtCurMin : ℚ)
     else ((2 ^ lgConfigK : Nat) : ℚ)) ≤
      getLowerBound T hipRse nonHipRse relErrTable sqrtFn lgConfigK curMin
        numAtCurMin oooFlag hipAccum kxq0 kxq1 numStdDev :=
  le_max_right _ _

theorem claim5_lower_bound_floor_witness :
    (1 : Nat) ≤ 2 ∧ (2 : Nat) ≤ 3 ∧
    (if (0 : Nat) = 0 then ((2 ^ 10 : Nat) : ℚ) - ((512 : Nat) : ℚ)
     else ((2 ^ 10 : Nat) : ℚ)) ≤
      getLowerBound witTables 0 0 (fun _ _ _ _ => 0) (fun _ => 0) 10 0 512 false
        100 1024 0 2 :=
  ⟨by norm_num, by norm_num,
    claim5_lower_bound_floor witTables 0 0 (fun _ _ _ _ => 0) (fun _ => 0) 10 0 512
      false 100 1024 0 2 (by norm_num) (by norm_num)⟩

/-! ## CPC estimate dispatch (cpc_sketch::get_estimate) -/

/-- The uncompressed FM85 fields `get_estimate` reads.  `getHIPEstimate`
(fm85.c) and `getIconEstimate` (iconEstimator.c) are not among the core
sources: HIP is an arbitrary function of the state, ICON a function of
(lgK, numCoupons) only, as the spec defines it. -/
structure CpcState where
  lgK : Nat
  numCoupons : Nat
  mergeFlag : Bool
  kxp : ℚ
  hipEstAccum : ℚ

/-- `cpc_sketch::get_estimate`: HIP unless the sketch has been merged,
ICON otherwise. -/
def get_estimate (getHIPEstimate : CpcState → ℚ) (getIconEstimate : Nat → Nat → ℚ)
    (s : CpcState) : ℚ :=
  if s.mergeFlag = false then getHIPEstimate s
  else getIconEstimate s.lgK s.numCoupons

/-- C6.  `get_estimate` returns the HIP estimate when mergeFlag is false and
the ICON estimate when mergeFlag is true; and on the merged path the result
depends only on (lgK, numCoupons). -/
theorem claim6_estimate_dispatch (hip : CpcState → ℚ) (icon : Nat → Nat → ℚ) :
    (∀ s : CpcState, s.mergeFlag = false → get_estimate hip icon s = hip s) ∧
    (∀ s : CpcState, s.mergeFlag = true →
      get_estimate hip icon s = icon s.lgK s.numCoupons) ∧
    (∀ s t : CpcState, s.mergeFlag = true → t.mergeFlag = true → s.lgK = t.lgK →
      s.numCoupons = t.numCoupons →
      get_estimate hip icon s = get_estimate hip icon t) :=
  ⟨fun s hs => by simp [get_estimate, hs],
   fun s hs => by simp [get_estimate, hs],
   fun s t hs ht hk hn => by simp [get_estimate, hs, ht, hk, hn]⟩

theorem claim6_estimate_dispatch_witness :
    (CpcState.mergeFlag ⟨11, 5, false, 1, 2⟩ = false ∧
      get_estimate (fun st => st.hipEstAccum) (fun a b => a + b) ⟨11, 5, false, 1, 2⟩ =
        (fun st : CpcState => st.hipEstAccum) ⟨11, 5, false, 1, 2⟩) ∧
    (CpcState.mergeFlag ⟨11, 5, true, 1, 2⟩ = true ∧
      get_estimate (fun st => st.hipEstAccum) (fun a b => a + b) ⟨11, 5, true, 1, 2⟩ =
        (11 : ℚ) + 5) ∧
    get_estimate (fun st => st.hipEstAccum) (fun a b => a + b) ⟨11, 5, true, 1, 2⟩ =
      get_estimate (fun st => st.hipEstAccum) (fun a b => a + b) ⟨11, 5, true, 9, 9⟩ :=
  ⟨⟨rfl, (claim6_estimate_dispatch (fun st => st.hipEstAccum) (fun a b => a + b)).1
      ⟨11, 5, false, 1, 2⟩ rfl⟩,
   ⟨rfl, (claim6_estimate_dispatch (fun st => st.hipEstAccum) (fun a b => a + b)).2.1
      ⟨11, 5, true, 1, 2⟩ rfl⟩,
   (claim6_estimate_dispatch (fun st => st.hipEstAccum) (fun a b => a + b)).2.2
      ⟨11, 5, true, 1, 2⟩ ⟨11, 5, true, 9, 9⟩ rfl rfl rfl rfl⟩

/-! ## KLL merge (kll_sketch) -/

/-- Modelled from the spec: the kll_sketch implementation is not among the
core sources; only its test suite is.  The tests pin the merge behaviour of
k: `merge_lower_k` shows that merging an estimation-mode lower-k sketch
adopts the lower k (the normalized rank error, a function of k alone,
becomes that of the other sketch), while `merge_exact_mode_lower_k` shows that
merging an empty or exact-mode lower-k sketch leaves the rank error, hence
k, unchanged.  Estimation mode per the spec state machine: exact when
n ≤ k, estimation when n > k. -/
structure KllSk where
  k : Nat
  n : Nat
deriving DecidableEq

/-- Modelled from the spec: exact mode (n ≤ k) vs estimation mode (n > k). -/
def is_estimation_mode (s : KllSk) : Bool := s.k < s.n

/-- Modelled from the spec and the src tests: merge adds the item counts;
the resulting k is contaminated down to `min` only by an estimation-mode
other sketch. -/
def kll_merge (self other : KllSk) : KllSk :=
  { k := if is_estimation_mode other then min self.k other.k else self.k,
    n := self.n + other.n }

/-- C7 counterexample: merging a non-empty exact-mode sketch with k = 128
into a sketch with k = 256 (the `merge_exact_mode_lower_k` test scenario)
leaves k at 256, not min(256,128) = 128. -/
theorem claim7_counterexample :
    (kll_merge ⟨256, 10000⟩ ⟨128, 1⟩).k ≠ min 256 128 := by decide

/-- C7 amended.  After self.merge(other), the resulting k equals
min(self.k, other.k) when other is in estimation mode — so the rank error
is the coarser of the two — and k is unchanged when other is empty or in
exact mode. -/
theorem claim7_merge_k (self other : KllSk) :
    (is_estimation_mode other = true →
      (kll_merge self other).k = min self.k other.k) ∧
    (is_estimation_mode other = false → (kll_merge self other).k = self.k) := by
  constructor <;> intro h <;> simp [kll_merge, h]

theorem claim7_merge_k_witness :
    (is_estimation_mode ⟨128, 10000⟩ = true ∧
      (kll_merge ⟨256, 10000⟩ ⟨128, 10000⟩).k = min 256 128) ∧
    (is_estimation_mode ⟨128, 1⟩ = false ∧
      (kll_merge ⟨256, 10000⟩ ⟨128, 1⟩).k = 256) :=
  ⟨⟨by decide, (claim7_merge_k ⟨256, 10000⟩ ⟨128, 10000⟩).1 (by decide)⟩,
   ⟨by decide, (claim7_merge_k ⟨256, 10000⟩ ⟨128, 1⟩).2 (by decide)⟩⟩

/-! ## HLL coupon update (HllArray::couponUpdate, HLL_8 / HLL_6 path) -/

/-- Modelled from the spec: `HllUtil::getLow26`, the low 26 bits of a
coupon (HllUtil.hpp is not among the core sources; the spec: coupon = slot
bits alongside a 6-bit leading-zeros+1 value). -/
def getLow26 (coupon : Nat) : Nat := coupon % 67108864

/-- Modelled from the spec: `HllUtil::getValue`, the 6-bit value field
above the low 26 bits of a coupon. -/
def getValue (coupon : Nat) : Nat := coupon / 67108864 % 64

/-- The HLL_8 register-array state: `HllArray` with the byte-per-slot array
of the derived Hll8Array modelled as a list.  numAtCurMin is a C int,
modelled as ℤ so the `>= 0` assertion is meaningful; the doubles over ℚ. -/
structure Hll8State where
  lgConfigK : Nat
  slots : List Nat
  curMin : Nat
  numAtCurMin : Int
  hipAccum : ℚ
  kxq0 : ℚ
  kxq1 : ℚ
  oooFlag : Bool

/-- `HllUtil::invPow2` over ℚ. -/
def invPow2 (v : Nat) : ℚ := 1 / 2 ^ v

/-- `HllArray::hipAndKxQIncrementalUpdate`: update hipAccum before kxq0 and
kxq1; subtract 2^(-oldValue) from kxq0 (oldValue < 32) or kxq1, then add
2^(-newValue) likewise. -/
def hipAndKxQIncrementalUpdate (s : Hll8State) (oldValue newValue : Nat) : Hll8State :=
  let s1 := { s with hipAccum := s.hipAccum + (2 ^ s.lgConfigK : ℚ) / (s.kxq0 + s.kxq1) }
  let s2 := if oldValue < 32 then { s1 with kxq0 := s1.kxq0 - invPow2 oldValue }
            else { s1 with kxq1 := s1.kxq1 - invPow2 oldValue }
  if newValue < 32 then { s2 with kxq0 := s2.kxq0 + invPow2 newValue }
  else { s2 with kxq1 := s2.kxq1 + invPow2 newValue }

/-- `getSlot` for the byte-per-slot representation. -/
def getSlot (s : Hll8State) (slotNo : Nat) : Nat := s.slots.getD slotNo 0

/-- `putSlot` for the byte-per-slot representation. -/
def putSlot (s : Hll8State) (slotNo v : Nat) : Hll8State :=
  { s with slots := s.slots.set slotNo v }

/-- `HllArray::couponUpdate`: decode slot and value, and on newVal > curVal
write the slot, run the HIP/kxq incremental update, and decrement
numAtCurMin (the zero count) if the overwritten value was 0. -/
def couponUpdate (s : Hll8State) (coupon : Nat) : Hll8State :=
  let slotNo := getLow26 coupon &&& (2 ^ s.lgConfigK - 1)
  let newVal := getValue coupon
  let curVal := getSlot s slotNo
  if newVal > curVal then
    let s2 := hipAndKxQIncrementalUpdate (putSlot s slotNo newVal) curVal newVal
    if curVal = 0 then { s2 with numAtCurMin := s2.numAtCurMin - 1 } else s2
  else s

/-- The argument pair `couponUpdate` passes to
`hipAndKxQIncrementalUpdate` when it makes the call (`none` when the coupon
is rejected and no call happens). -/
def hipCallArgs (s : Hll8State) (coupon : Nat) : Option (Nat × Nat) :=
  if getValue coupon > getSlot s (getLow26 coupon &&& (2 ^ s.lgConfigK - 1)) then
    some (getSlot s (getLow26 coupon &&& (2 ^ s.lgConfigK - 1)), getValue coupon)
  else none

/-- The `HllArray` constructor state: hipAccum 0, kxq0 = k, kxq1 0,
curMin 0, numAtCurMin = k, oooFlag false; the derived Hll8Array allocates
the 2^lgConfigK slot bytes zeroed. -/
def freshHllArray (lgConfigK : Nat) : Hll8State :=
  { lgConfigK := lgConfigK, slots := List.replicate (2 ^ lgConfigK) 0,
    curMin := 0, numAtCurMin := (2 ^ lgConfigK : Int), hipAccum := 0,
    kxq0 := (2 ^ lgConfigK : ℚ), kxq1 := 0, oooFlag := false }

/-- `HllArray::isEmpty`: curMin = 0 and numAtCurMin = configK. -/
def isEmpty (s : Hll8State) : Bool :=
  s.curMin == 0 && s.numAtCurMin == (2 ^ s.lgConfigK : Int)

/-- The register-array data invariant in HLL_8 / HLL_6 mode: numAtCurMin
counts the zero slots ("interpret numAtCurMin as num zeros"), the array has
2^lgConfigK slots, and curMin stays 0. -/
def goodHll (s : Hll8State) : Prop :=
  s.numAtCurMin = (s.slots.count 0 : Int) ∧
  s.slots.length = 2 ^ s.lgConfigK ∧ s.curMin = 0

theorem hip_proj (s : Hll8State) (o n : Nat) :
    (hipAndKxQIncrementalUpdate s o n).slots = s.slots ∧
    (hipAndKxQIncrementalUpdate s o n).numAtCurMin = s.numAtCurMin ∧
    (hipAndKxQIncrementalUpdate s o n).lgConfigK = s.lgConfigK ∧
    (hipAndKxQIncrementalUpdate s o n).curMin = s.curMin := by
  simp only [hipAndKxQIncrementalUpdate]
  split <;> split <;> simp

theorem goodHll_fresh (lgConfigK : Nat) : goodHll (freshHllArray lgConfigK) := by
  refine ⟨?_, by simp [freshHllArray], rfl⟩
  simp [freshHllArray, List.count_replicate]

theorem couponUpdate_good (s : Hll8State) (c : Nat) (hg : goodHll s) :
    goodHll (couponUpdate s c) ∧
    (couponUpdate s c).slots.count 0 ≤ s.slots.count 0 ∧
    (couponUpdate s c).lgConfigK = s.lgConfigK := by
  obtain ⟨hn, hl, hc⟩ := hg
  have hpos : 0 < 2 ^ s.lgConfigK := Nat.two_pow_pos s.lgConfigK
  have hand : (getLow26 c &&& (2 ^ s.lgConfigK - 1)) ≤ 2 ^ s.lgConfigK - 1 :=
    Nat.and_le_right
  simp only [couponUpdate]
  generalize hidxe : getLow26 c &&& (2 ^ s.lgConfigK - 1) = idx
  rw [hidxe] at hand
  have hlt : idx < s.slots.length := by omega
  by_cases hacc : getValue c > getSlot s idx
  case neg =>
    rw [if_neg hacc]
    exact ⟨⟨hn, hl, hc⟩, le_refl _, rfl⟩
  case pos =>
    rw [if_pos hacc]
    have hvne : getValue c ≠ 0 := by
      have := hacc
      omega
    have hv : (getValue c == 0) = false := by simp [hvne]
    have hcount := List.count_set (getValue c) 0 s.slots idx hlt
    have hS : (hipAndKxQIncrementalUpdate (putSlot s idx (getValue c))
        (getSlot s idx) (getValue c)).slots = s.slots.set idx (getValue c) := by
      rw [(hip_proj _ _ _).1]
      rfl
    have hN : (hipAndKxQIncrementalUpdate (putSlot s idx (getValue c))
        (getSlot s idx) (getValue c)).numAtCurMin = s.numAtCurMin := by
      rw [(hip_proj _ _ _).2.1]
      rfl
    have hK : (hipAndKxQIncrementalUpdate (putSlot s idx (getValue c))
        (getSlot s idx) (getValue c)).lgConfigK = s.lgConfigK := by
      rw [(hip_proj _ _ _).2.2.1]
      rfl
    have hC : (hipAndKxQIncrementalUpdate (putSlot s idx (getValue c))
        (getSlot s idx) (getValue c)).curMin = s.curMin := by
      rw [(hip_proj _ _ _).2.2.2]
      rfl
    by_cases hz : getSlot s idx = 0
    case pos =>
      have hidx : s.slots[idx] = 0 := by
        rw [← List.getD_eq_getElem s.slots 0 hlt]
        exact hz
      have hcpos : 0 < s.slots.count 0 :=
        List.count_pos_iff.mpr (hidx ▸ List.getElem_mem hlt)
      have hq : (s.slots.set idx (getValue c)).count 0 = s.slots.count 0 - 1 := by
        rw [hcount, hidx]
        simp [hv]
      rw [if_pos hz]
      refine ⟨⟨?_, ?_, ?_⟩, ?_, ?_⟩ <;> simp only [hS, hN, hK, hC]
      · rw [hq]
        omega
      · rw [List.length_set]
        exact hl
      · exact hc
      · rw [hq]
        omega
    case neg =>
      have hidx : (s.slots[idx] == 0) = false := by
        have h0 : s.slots[idx] ≠ 0 := by
          rw [← List.getD_eq_getElem s.slots 0 hlt]
          exact hz
        simp [h0]
      have hq : (s.slots.set idx (getValue c)).count 0 = s.slots.count 0 := by
        rw [hcount, hidx]
        simp [hv]
      rw [if_neg hz]
      refine ⟨⟨?_, ?_, ?_⟩, ?_, ?_⟩ <;> simp only [hS, hN, hK, hC]
      · rw [hq]
        exact hn
      · rw [List.length_set]
        exact hl
      · exact hc
      · rw [hq]

theorem couponUpdate_accept_count (s : Hll8State) (c : Nat) (hg : goodHll s)
    (ha : hipCallArgs s c ≠ none) :
    (couponUpdate s c).slots.count 0 < 2 ^ s.lgConfigK := by
  obtain ⟨hn, hl, hc⟩ := hg
  have hpos : 0 < 2 ^ s.lgConfigK := Nat.two_pow_pos s.lgConfigK
  have hand : (getLow26 c &&& (2 ^ s.lgConfigK - 1)) ≤ 2 ^ s.lgConfigK - 1 :=
    Nat.and_le_right
  have hcle := List.count_le_length 0 s.slots
  simp only [couponUpdate, hipCallArgs] at ha ⊢
  set idx := getLow26 c &&& (2 ^ s.lgConfigK - 1) with hidxe
  have hlt : idx < s.slots.length := by omega
  by_cases hacc : getValue c > getSlot s idx
  case neg =>
    rw [if_neg hacc] at ha
    simp at ha
  case pos =>
    rw [if_pos hacc]
    have hvne : getValue c ≠ 0 := by omega
    have hv : (getValue c == 0) = false := by simp [hvne]
    have hcount := List.count_set (getValue c) 0 s.slots idx hlt
    have hS : (hipAndKxQIncrementalUpdate (putSlot s idx (getValue c))
        (getSlot s idx) (getValue c)).slots = s.slots.set idx (getValue c) := by
      rw [(hip_proj _ _ _).1]
      rfl
    by_cases hz : getSlot s idx = 0
    case pos =>
      have hidx : s.slots[idx] = 0 := by
        rw [← List.getD_eq_getElem s.slots 0 hlt]
        exact hz
      have hcpos : 0 < s.slots.count 0 :=
        List.count_pos_iff.mpr (hidx ▸ List.getElem_mem hlt)
      have hq : (s.slots.set idx (getValue c)).count 0 = s.slots.count 0 - 1 := by
        rw [hcount, hidx]
        simp [hv]
      rw [if_pos hz]
      simp only [hS, hq]
      omega
    case neg =>
      have h0 : s.slots[idx] ≠ 0 := by
        rw [← List.getD_eq_getElem s.slots 0 hlt]
        exact hz
      have hidx : (s.slots[idx] == 0) = false := by simp [h0]
      have hq : (s.slots.set idx (getValue c)).count 0 = s.slots.count 0 := by
        rw [hcount, hidx]
        simp [hv]
      have hne : s.slots.count 0 ≠ s.slots.length := by
        intro he
        exact h0 ((List.count_eq_length.mp he _ (List.getElem_mem hlt)).symm)
      rw [if_neg hz]
      simp only [hS, hq]
      omega

/-- C9.  `hipAndKxQIncrementalUpdate` asserts newValue > oldValue; every
call `couponUpdate` makes satisfies it, because the call sits on the branch
where the decoded coupon value exceeds the current slot value.  Likewise
the `getNumAtCurMin() >= 0` assertion after the decrement never fires:
numAtCurMin counts the zero slots (invariant established by the
constructor and preserved by couponUpdate, since the decrement happens only
when the overwritten slot value was 0), so it stays non-negative. -/
theorem claim9_update_safety :
    (∀ (s : Hll8State) (coupon o n : Nat),
       hipCallArgs s coupon = some (o, n) → n > o) ∧
    (∀ lgConfigK : Nat, goodHll (freshHllArray lgConfigK)) ∧
    (∀ (s : Hll8State) (coupon : Nat), goodHll s →
       goodHll (couponUpdate s coupon) ∧ 0 ≤ (couponUpdate s coupon).numAtCurMin) := by
  refine ⟨?_, goodHll_fresh, ?_⟩
  · intro s coupon o n h
    unfold hipCallArgs at h
    split at h
    · rename_i hcond
      simp only [Option.some.injEq, Prod.mk.injEq] at h
      obtain ⟨rfl, rfl⟩ := h
      exact hcond
    · cases h
  · intro s coupon hg
    refine ⟨(couponUpdate_good s coupon hg).1, ?_⟩
    rw [(couponUpdate_good s coupon hg).1.1]
    exact Int.natCast_nonneg _

theorem claim9_update_safety_witness :
    hipCallArgs (freshHllArray 4) 67108864 = some (0, 1) ∧ (1 : Nat) > 0 ∧
    goodHll (freshHllArray 4) ∧
    (goodHll (couponUpdate (freshHllArray 4) 67108864) ∧
      0 ≤ (couponUpdate (freshHllArray 4) 67108864).numAtCurMin) := by
  have h : hipCallArgs (freshHllArray 4) 67108864 = some (0, 1) := by decide
  exact ⟨h, claim9_update_safety.1 (freshHllArray 4) 67108864 0 1 h,
    claim9_update_safety.2.1 4,
    claim9_update_safety.2.2 (freshHllArray 4) 67108864 (claim9_update_safety.2.1 4)⟩

theorem isEmpty_false_of_count_lt (t : Hll8State) (hg : goodHll t)
    (hlt : t.slots.count 0 < 2 ^ t.lgConfigK) : isEmpty t = false := by
  obtain ⟨hn, hl, hc⟩ := hg
  have hne : t.numAtCurMin ≠ ((2 : Int) ^ t.lgConfigK) := by
    rw [hn]
    have h2 : ((t.slots.count 0 : Int)) < ((2 : Int) ^ t.lgConfigK) := by
      exact_mod_cast hlt
    exact ne_of_lt h2
  simp [isEmpty, hne]

theorem foldl_couponUpdate_not_empty (cs : List Nat) (t : Hll8State)
    (hg : goodHll t) (hcount : t.slots.count 0 < 2 ^ t.lgConfigK) :
    isEmpty (List.foldl couponUpdate t cs) = false := by
  induction cs generalizing t with
  | nil => exact isEmpty_false_of_count_lt t hg hcount
  | cons x xs ih =>
      simp only [List.foldl_cons]
      refine ih _ (couponUpdate_good t x hg).1 ?_
      rw [(couponUpdate_good t x hg).2.2]
      exact lt_of_le_of_lt (couponUpdate_good t x hg).2.1 hcount

/-- C10.  An HLL-mode sketch reports isEmpty exactly when curMin = 0 and
numAtCurMin = 2^lgConfigK; a freshly constructed HllArray is empty; and
once a couponUpdate accepts a value (newVal > curVal, i.e. the HIP call
happens), no further sequence of couponUpdate calls ever makes isEmpty
true again. -/
theorem claim10_empty_transitions :
    (∀ s : Hll8State, isEmpty s = true ↔
       (s.curMin = 0 ∧ s.numAtCurMin = ((2 : Int) ^ s.lgConfigK))) ∧
    (∀ lgConfigK : Nat, isEmpty (freshHllArray lgConfigK) = true) ∧
    (∀ (s : Hll8State) (coupon : Nat), goodHll s → hipCallArgs s coupon ≠ none →
       ∀ cs : List Nat,
         isEmpty (List.foldl couponUpdate (couponUpdate s coupon) cs) = false) := by
  refine ⟨?_, ?_, ?_⟩
  · intro s
    simp [isEmpty]
  · intro lgConfigK
    simp [isEmpty, freshHllArray]
  · intro s coupon hg ha cs
    refine foldl_couponUpdate_not_empty cs _ (couponUpdate_good s coupon hg).1 ?_
    rw [(couponUpdate_good s coupon hg).2.2]
    exact couponUpdate_accept_count s coupon hg ha

theorem claim10_empty_transitions_witness :
    isEmpty (freshHllArray 4) = true ∧
    goodHll (freshHllArray 4) ∧ hipCallArgs (freshHllArray 4) 67108865 ≠ none ∧
    isEmpty (List.foldl couponUpdate (couponUpdate (freshHllArray 4) 67108865)
      [134217729]) = false := by
  refine ⟨claim10_empty_transitions.2.1 4, goodHll_fresh 4, by decide, ?_⟩
  exact claim10_empty_transitions.2.2 (freshHllArray 4) 67108865 (goodHll_fresh 4)
    (by decide) [134217729]
